import Mathlib

/-!
Verification of the ELF program-header reordering tool (`reorder_elf.py`).

The tool reads a 32-bit little-endian ELF image into one buffer, classifies
the loadable program-header entries into a `Storage` segment (vaddr 0) and
`Code` segments (vaddr nonzero), merges the code segments into one, removes
the program-header table from its original position, appends the (normally
2-entry) table at end of file, and patches every absolute file offset that
pointed past the removed table.

The embedding below is structured rather than byte-level: the fixed-offset
header fields, the parsed program-header entries and the section headers'
data-offset fields are carried as record fields, exactly the data the
script reads and writes.  Buffer arithmetic (the length of the file after
the table bytes are sliced out) is modelled with the same slicing
semantics Python uses.  The model assumes the standard layout the script
itself assumes: the program-header table is a run of whole records inside
the file and the section-header table does not overlap it.
-/

namespace ReorderElf

/-- One program-header entry: eight unsigned 32-bit fields in the fixed
order the script unpacks them (type, offset, vaddr, paddr, filesz, memsz,
flags, align). -/
structure PHEntry where
  ptype : Nat
  offset : Nat
  vaddr : Nat
  paddr : Nat
  filesz : Nat
  memsz : Nat
  flags : Nat
  align : Nat
deriving Repr, DecidableEq

/-- Type tag of a loadable segment (`PT_LOAD = 1` in the script). -/
def PT_LOAD : Nat := 1

/-- The four ELF magic bytes `\x7fELF` checked at the top of `reorder_elf`. -/
def elfMagic : List Nat := [0x7f, 0x45, 0x4c, 0x46]

/-- Result of `merge_load_segments`: the returned program-header records,
the returned header count, and the byte length of the returned table data
(the original `ph_size` bytes on the warning paths, two 32-byte packed
records on the merge path). -/
structure MergeOut where
  segs : List PHEntry
  phnum : Nat
  byteLen : Nat
deriving Repr, DecidableEq

/-- The classification loop's `storage_seg` variable: scanning the entries
in order, every `PT_LOAD` entry with `vaddr = 0` overwrites it, so the
last such entry wins. -/
def findStorage (segments : List PHEntry) : Option PHEntry :=
  segments.foldl
    (fun acc seg => if seg.ptype = PT_LOAD ∧ seg.vaddr = 0 then some seg else acc)
    none

/-- The classification loop's `code_segs` list: the `PT_LOAD` entries with
nonzero `vaddr`, in file order. -/
def codeSegs (segments : List PHEntry) : List PHEntry :=
  segments.filter (fun seg => seg.ptype == PT_LOAD && seg.vaddr != 0)

/-- The merged code segment built when more than one code segment exists
(lines 66-89 of the script): minimum offset and vaddr, union spans for
filesz/memsz, OR of the flags, paddr set to the minimum vaddr, alignment
hard-coded to 4. -/
def merged_code_seg (code_segs : List PHEntry) : PHEntry :=
  let min_offset := ((code_segs.map (fun s => s.offset)).min?).getD 0
  let min_vaddr := ((code_segs.map (fun s => s.vaddr)).min?).getD 0
  let max_end_file := ((code_segs.map (fun s => s.offset + s.filesz)).max?).getD 0
  let max_end_mem := ((code_segs.map (fun s => s.vaddr + s.memsz)).max?).getD 0
  let merged_flags := code_segs.foldl (fun acc s => acc ||| s.flags) 0
  { ptype := PT_LOAD
    offset := min_offset
    vaddr := min_vaddr
    paddr := min_vaddr
    filesz := max_end_file - min_offset
    memsz := max_end_mem - min_vaddr
    flags := merged_flags
    align := 4 }

/-- The `merge_load_segments` function.  When no storage segment or no code
segment is found it prints a warning and returns the original table data
and the original count; otherwise it returns the two records
`[storage_seg, merged_code_seg]` (the single code segment is passed
through as-is when only one exists) packed as 2 × 32 bytes. -/
def merge_load_segments (segments : List PHEntry) (e_phentsize e_phnum : Nat) :
    MergeOut :=
  match findStorage segments with
  | none => ⟨segments, e_phnum, e_phentsize * e_phnum⟩
  | some storage_seg =>
    let code_segs := codeSegs segments
    if code_segs.length = 0 then
      ⟨segments, e_phnum, e_phentsize * e_phnum⟩
    else
      let mc :=
        if 1 < code_segs.length then merged_code_seg code_segs
        else code_segs.headD ⟨0, 0, 0, 0, 0, 0, 0, 0⟩
      ⟨[storage_seg, mc], 2, 32 * 2⟩

/-- The input image, as the script reads it: the validated identification
bytes, the six header fields it unpacks, the parsed program-header table,
the data-offset field of each section header, and the total byte length of
the buffer.  The output is the same shape (the script never touches the
identification bytes, `phentsize`, `shentsize` or `shnum`). -/
structure ElfFile where
  magic : List Nat
  eiClass : Nat
  eiData : Nat
  phoff : Nat
  shoff : Nat
  phentsize : Nat
  phnum : Nat
  shentsize : Nat
  shnum : Nat
  segments : List PHEntry
  sections : List Nat
  fileSize : Nat
deriving Repr, DecidableEq

/-- The three validation failures of `reorder_elf`; each corresponds to an
error message printed before `return False`, so no output file is written. -/
inductive ElfError where
  | BadMagic
  | UnsupportedClass
  | UnsupportedEndianness
deriving Repr, DecidableEq

/-- Length of `data[:start] + data[start+count:]` for a buffer of length
`len`, with Python slicing semantics (slices clip to the buffer). -/
def sliceRemoveLen (len start count : Nat) : Nat :=
  min start len + (len - min (start + count) len)

/-- The patch applied to the `p_offset` field of each entry of the newly
appended table (lines 197-210): offsets strictly greater than the original
`phoff` drop by the removed table size. -/
def patch_p_offset (e_phoff ph_size : Nat) (seg : PHEntry) : PHEntry :=
  if e_phoff < seg.offset then { seg with offset := seg.offset - ph_size } else seg

/-- The patch applied to each section header's data-offset field
(lines 213-225): values strictly greater than the original `phoff` and
below the all-ones sentinel drop by the removed table size. -/
def patch_sh_offset (e_phoff ph_size off : Nat) : Nat :=
  if e_phoff < off ∧ off < 0xFFFFFFFF then off - ph_size else off

/-- The whole transform.  Validation failures return an error (the script
returns `False` with no output written).  Otherwise the table is merged,
excised and re-appended at the end of the buffer, the header fields
`phoff`/`phnum` are rewritten, `shoff` is shifted when it lay past the
table, the appended entries' offsets are patched, and the section
data-offsets are patched when `shoff > phoff`. -/
def reorder_elf (f : ElfFile) : Except ElfError ElfFile :=
  if f.magic ≠ elfMagic then .error .BadMagic
  else if f.eiClass ≠ 1 then .error .UnsupportedClass
  else if f.eiData ≠ 1 then .error .UnsupportedEndianness
  else
    let ph_size := f.phentsize * f.phnum
    let m := merge_load_segments f.segments f.phentsize f.phnum
    let new_phoff := sliceRemoveLen f.fileSize f.phoff ph_size
    let new_shoff := if f.phoff < f.shoff then f.shoff - ph_size else f.shoff
    let new_segments := m.segs.map (patch_p_offset f.phoff ph_size)
    let new_sections :=
      if f.phoff < f.shoff then f.sections.map (patch_sh_offset f.phoff ph_size)
      else f.sections
    .ok { f with
          phoff := new_phoff
          shoff := new_shoff
          phnum := m.phnum
          segments := new_segments
          sections := new_sections
          fileSize := new_phoff + m.byteLen }

/-- The `__main__` block with both paths supplied: exit status 0 when
`reorder_elf` returns `True`, 1 when it returns `False`. -/
def cli_exit_code (f : ElfFile) : Nat :=
  match reorder_elf f with
  | .ok _ => 0
  | .error _ => 1

/-! ### Concrete example images used by witnesses and counterexamples -/

/-- Storage segment of the spec's concrete scenario: loadable, vaddr 0. -/
def exStorageSeg : PHEntry := ⟨1, 0x94, 0, 0, 0x40, 0x40, 4, 4⟩

/-- First code segment of the spec's concrete scenario. -/
def exCode1 : PHEntry := ⟨1, 0x200, 0x1000, 0x1000, 0x100, 0x100, 5, 4⟩

/-- Second code segment of the spec's concrete scenario. -/
def exCode2 : PHEntry := ⟨1, 0x400, 0x1200, 0x1200, 0x200, 0x200, 6, 4⟩

/-- A valid image matching the spec's concrete scenario: `phoff = 0x34`,
`phentsize = 32`, `phnum = 3`, one storage and two code segments, section
table at 0x700 with two sections. -/
def exFile : ElfFile :=
  { magic := elfMagic, eiClass := 1, eiData := 1
    phoff := 0x34, shoff := 0x700, phentsize := 32, phnum := 3
    shentsize := 40, shnum := 2
    segments := [exStorageSeg, exCode1, exCode2]
    sections := [0x34, 0x650]
    fileSize := 0x800 }

/-- A valid image with no loadable segment of vaddr 0 (no storage). -/
def exNoStorage : ElfFile :=
  { magic := elfMagic, eiClass := 1, eiData := 1
    phoff := 0x34, shoff := 0, phentsize := 32, phnum := 1
    shentsize := 40, shnum := 0
    segments := [exCode1]
    sections := []
    fileSize := 512 }

/-- A valid image with one storage and exactly one code segment. -/
def exOneCode : ElfFile :=
  { magic := elfMagic, eiClass := 1, eiData := 1
    phoff := 0x34, shoff := 0, phentsize := 32, phnum := 2
    shentsize := 40, shnum := 0
    segments := [exStorageSeg, exCode1]
    sections := []
    fileSize := 768 }

/-- A code segment whose paddr differs from its vaddr and whose alignment
is 8, to observe whether the single-segment path normalizes them. -/
def exCodeOdd : PHEntry := ⟨1, 0x200, 0x1000, 0x2000, 0x100, 0x100, 5, 8⟩

/-- A valid image whose single code segment has paddr 0x2000 and align 8. -/
def exOddFile : ElfFile :=
  { magic := elfMagic, eiClass := 1, eiData := 1
    phoff := 0x34, shoff := 0, phentsize := 32, phnum := 2
    shentsize := 40, shnum := 0
    segments := [exStorageSeg, exCodeOdd]
    sections := []
    fileSize := 768 }

/-- A valid image whose section table sits before the program-header table
(`shoff = 0 < phoff`) while a section's data offset lies past `phoff`. -/
def exShoffLow : ElfFile :=
  { magic := elfMagic, eiClass := 1, eiData := 1
    phoff := 0x34, shoff := 0, phentsize := 32, phnum := 2
    shentsize := 40, shnum := 1
    segments := [exCode1, exCode2]
    sections := [500]
    fileSize := 600 }

/-- A non-loadable entry (type `PT_NOTE = 4`). -/
def exNoteSeg : PHEntry := ⟨4, 0x100, 0x5000, 0x5000, 0x10, 0x10, 4, 4⟩

/-- A valid image carrying a non-loadable entry next to one storage and one
code segment. -/
def exWithNote : ElfFile :=
  { magic := elfMagic, eiClass := 1, eiData := 1
    phoff := 0x34, shoff := 0, phentsize := 32, phnum := 3
    shentsize := 40, shnum := 0
    segments := [exNoteSeg, exStorageSeg, exCode1]
    sections := []
    fileSize := 1024 }

/-- An image whose first four bytes are not the ELF signature. -/
def exBadMagic : ElfFile :=
  { magic := [0, 0, 0, 0], eiClass := 1, eiData := 1
    phoff := 0x34, shoff := 0, phentsize := 32, phnum := 0
    shentsize := 40, shnum := 0
    segments := [], sections := [], fileSize := 64 }

/-! ### Helper lemmas about the classification and patch functions -/

theorem findStorage_go (l : List PHEntry) (acc : Option PHEntry) (s : PHEntry)
    (h : l.foldl
      (fun acc seg => if seg.ptype = PT_LOAD ∧ seg.vaddr = 0 then some seg else acc)
      acc = some s) :
    acc = some s ∨ (s ∈ l ∧ s.ptype = PT_LOAD ∧ s.vaddr = 0) := by
  induction l generalizing acc with
  | nil => left; simpa using h
  | cons x xs ih =>
    simp only [List.foldl_cons] at h
    rcases ih _ h with h1 | h1
    · by_cases hx : x.ptype = PT_LOAD ∧ x.vaddr = 0
      · rw [if_pos hx] at h1
        right
        refine ⟨?_, ?_, ?_⟩
        · rw [← Option.some_inj.mp h1]; exact List.mem_cons_self x xs
        · rw [← Option.some_inj.mp h1]; exact hx.1
        · rw [← Option.some_inj.mp h1]; exact hx.2
      · rw [if_neg hx] at h1; left; exact h1
    · right; exact ⟨List.mem_cons_of_mem x h1.1, h1.2⟩

theorem findStorage_spec (l : List PHEntry) (s : PHEntry) (h : findStorage l = some s) :
    s ∈ l ∧ s.ptype = PT_LOAD ∧ s.vaddr = 0 := by
  rcases findStorage_go l none s h with h1 | h1
  · exact absurd h1 (by simp)
  · exact h1

theorem codeSegs_spec (l : List PHEntry) (s : PHEntry) (h : s ∈ codeSegs l) :
    s ∈ l ∧ s.ptype = PT_LOAD ∧ s.vaddr ≠ 0 := by
  rw [codeSegs, List.mem_filter] at h
  refine ⟨h.1, ?_, ?_⟩
  · have := h.2
    simp only [Bool.and_eq_true, beq_iff_eq, bne_iff_ne] at this
    exact this.1
  · have := h.2
    simp only [Bool.and_eq_true, beq_iff_eq, bne_iff_ne] at this
    exact this.2

theorem two_le_length_of_mem_ne {α : Type} (l : List α) (a b : α)
    (ha : a ∈ l) (hb : b ∈ l) (hne : a ≠ b) : 2 ≤ l.length := by
  match l with
  | [] => simp at ha
  | [x] =>
    simp at ha hb
    exact absurd (ha.trans hb.symm) hne
  | x :: y :: rest => simp only [List.length_cons]; omega

theorem nat_min_eq_or (a b : Nat) : min a b = a ∨ min a b = b := by
  rcases Nat.le_total a b with h | h
  · left; exact Nat.min_eq_left h
  · right; exact Nat.min_eq_right h

theorem nat_max_eq_or (a b : Nat) : max a b = a ∨ max a b = b := by
  rcases Nat.le_total b a with h | h
  · left; exact Nat.max_eq_left h
  · right; exact Nat.max_eq_right h

theorem min?_getD_of_ne_nil (l : List Nat) (h : l ≠ []) :
    l.min? = some (l.min?.getD 0) := by
  cases hm : l.min? with
  | none => exact absurd (List.min?_eq_none_iff.mp hm) h
  | some a => simp

theorem max?_getD_of_ne_nil (l : List Nat) (h : l ≠ []) :
    l.max? = some (l.max?.getD 0) := by
  cases hm : l.max? with
  | none => exact absurd (List.max?_eq_none_iff.mp hm) h
  | some a => simp

theorem min?_getD_mem (l : List Nat) (h : l ≠ []) : l.min?.getD 0 ∈ l :=
  List.min?_mem nat_min_eq_or (min?_getD_of_ne_nil l h)

/-! ### Characterization of `merge_load_segments` on each of its paths -/

theorem merge_eq_warn_noStorage (segments : List PHEntry) (p n : Nat)
    (h : findStorage segments = none) :
    merge_load_segments segments p n = ⟨segments, n, p * n⟩ := by
  unfold merge_load_segments
  rw [h]

theorem merge_eq_warn_noCode (segments : List PHEntry) (p n : Nat) (st : PHEntry)
    (hst : findStorage segments = some st) (hcs : codeSegs segments = []) :
    merge_load_segments segments p n = ⟨segments, n, p * n⟩ := by
  unfold merge_load_segments
  rw [hst]
  simp [hcs]

theorem merge_eq_single (segments : List PHEntry) (p n : Nat) (st c : PHEntry)
    (hst : findStorage segments = some st) (hcs : codeSegs segments = [c]) :
    merge_load_segments segments p n = ⟨[st, c], 2, 64⟩ := by
  unfold merge_load_segments
  rw [hst]
  simp [hcs]

theorem merge_eq_multi (segments : List PHEntry) (p n : Nat) (st : PHEntry)
    (hst : findStorage segments = some st) (h2 : 2 ≤ (codeSegs segments).length) :
    merge_load_segments segments p n =
      ⟨[st, merged_code_seg (codeSegs segments)], 2, 64⟩ := by
  unfold merge_load_segments
  rw [hst]
  have h0 : ¬(codeSegs segments).length = 0 := by omega
  have h1 : 1 < (codeSegs segments).length := by omega
  simp [h0, h1]

theorem merged_code_seg_ptype (cs : List PHEntry) : (merged_code_seg cs).ptype = PT_LOAD := rfl

theorem merged_code_seg_vaddr_ne_zero (cs : List PHEntry) (hne : cs ≠ [])
    (h : ∀ s ∈ cs, s.vaddr ≠ 0) : (merged_code_seg cs).vaddr ≠ 0 := by
  have hmap : (cs.map fun s => s.vaddr) ≠ [] := by simpa using hne
  have hmem := min?_getD_mem (cs.map fun s => s.vaddr) hmap
  rw [List.mem_map] at hmem
  rcases hmem with ⟨s, hs, hv⟩
  have : (merged_code_seg cs).vaddr = ((cs.map fun s => s.vaddr).min?).getD 0 := rfl
  rw [this, ← hv]
  exact h s hs

/-- Combined shape of the merge on the success path: with a storage segment
and a nonempty code list, the result is `[storage, mc]` with count 2 and
64 bytes of packed data, where `mc` is loadable with nonzero vaddr. -/
theorem merge_segs_of_storage_code (segments : List PHEntry) (p n : Nat) (st : PHEntry)
    (hst : findStorage segments = some st) (hcs : codeSegs segments ≠ []) :
    ∃ mc, merge_load_segments segments p n = ⟨[st, mc], 2, 64⟩ ∧
      mc.ptype = PT_LOAD ∧ mc.vaddr ≠ 0 := by
  match hc : codeSegs segments with
  | [] => exact absurd hc hcs
  | [c] =>
    refine ⟨c, merge_eq_single segments p n st c hst hc, ?_, ?_⟩
    · exact (codeSegs_spec segments c (by rw [hc]; exact List.mem_cons_self c [])).2.1
    · exact (codeSegs_spec segments c (by rw [hc]; exact List.mem_cons_self c [])).2.2
  | c1 :: c2 :: rest =>
    have h2 : 2 ≤ (codeSegs segments).length := by rw [hc]; simp only [List.length_cons]; omega
    refine ⟨merged_code_seg (codeSegs segments),
      merge_eq_multi segments p n st hst h2, merged_code_seg_ptype _, ?_⟩
    refine merged_code_seg_vaddr_ne_zero _ (by rw [hc]; simp) ?_
    intro s hs
    exact (codeSegs_spec segments s hs).2.2

/-! ### Arithmetic of the buffer-length bookkeeping -/

theorem sliceRemoveLen_of_fit (len start count : Nat) (h : start + count ≤ len) :
    sliceRemoveLen len start count = len - count := by
  unfold sliceRemoveLen
  rw [Nat.min_eq_left (by omega), Nat.min_eq_left h]
  omega

theorem sliceRemoveLen_at_end (s c : Nat) : sliceRemoveLen (s + c) s c = s := by
  unfold sliceRemoveLen
  rw [Nat.min_eq_left (by omega), Nat.min_self]
  omega

theorem patch_p_offset_ptype (a b : Nat) (s : PHEntry) :
    (patch_p_offset a b s).ptype = s.ptype := by
  unfold patch_p_offset; split <;> rfl

theorem patch_p_offset_vaddr (a b : Nat) (s : PHEntry) :
    (patch_p_offset a b s).vaddr = s.vaddr := by
  unfold patch_p_offset; split <;> rfl

theorem patch_p_offset_paddr (a b : Nat) (s : PHEntry) :
    (patch_p_offset a b s).paddr = s.paddr := by
  unfold patch_p_offset; split <;> rfl

theorem patch_p_offset_align (a b : Nat) (s : PHEntry) :
    (patch_p_offset a b s).align = s.align := by
  unfold patch_p_offset; split <;> rfl

/-- On a validated image the transform always succeeds, with each output
field the value the script writes. -/
theorem reorder_elf_ok (f : ElfFile) (hm : f.magic = elfMagic) (hc : f.eiClass = 1)
    (hd : f.eiData = 1) :
    reorder_elf f = .ok
      { f with
        phoff := sliceRemoveLen f.fileSize f.phoff (f.phentsize * f.phnum)
        shoff := if f.phoff < f.shoff then f.shoff - f.phentsize * f.phnum else f.shoff
        phnum := (merge_load_segments f.segments f.phentsize f.phnum).phnum
        segments := (merge_load_segments f.segments f.phentsize f.phnum).segs.map
          (patch_p_offset f.phoff (f.phentsize * f.phnum))
        sections := if f.phoff < f.shoff then
            f.sections.map (patch_sh_offset f.phoff (f.phentsize * f.phnum))
          else f.sections
        fileSize := sliceRemoveLen f.fileSize f.phoff (f.phentsize * f.phnum) +
          (merge_load_segments f.segments f.phentsize f.phnum).byteLen } := by
  simp [reorder_elf, hm, hc, hd]

theorem findStorage_pair (a b : PHEntry) (ha1 : a.ptype = PT_LOAD) (ha2 : a.vaddr = 0)
    (hb : b.vaddr ≠ 0) : findStorage [a, b] = some a := by
  simp [findStorage, ha1, ha2, hb]

theorem codeSegs_pair (a b : PHEntry) (ha : a.vaddr = 0) (hb1 : b.ptype = PT_LOAD)
    (hb2 : b.vaddr ≠ 0) : codeSegs [a, b] = [b] := by
  have hbne : (b.vaddr != 0) = true := by simpa using hb2
  simp [codeSegs, List.filter, ha, hb1, hbne]

/-! ### The claims -/

/-- C7: an input whose first four bytes are not the ELF signature, or whose
class byte is not 32-bit, or whose endianness byte is not little-endian,
makes the transform fail with `BadMagic`, `UnsupportedClass` or
`UnsupportedEndianness` respectively (in validation order), and no output
is produced. -/
theorem C7_header_validation (f : ElfFile) :
    (f.magic ≠ elfMagic → reorder_elf f = .error .BadMagic) ∧
    (f.magic = elfMagic → f.eiClass ≠ 1 → reorder_elf f = .error .UnsupportedClass) ∧
    (f.magic = elfMagic → f.eiClass = 1 → f.eiData ≠ 1 →
      reorder_elf f = .error .UnsupportedEndianness) ∧
    ((f.magic ≠ elfMagic ∨ f.eiClass ≠ 1 ∨ f.eiData ≠ 1) →
      ∀ o, reorder_elf f ≠ .ok o) := by
  refine ⟨?_, ?_, ?_, ?_⟩
  · intro h; simp [reorder_elf, h]
  · intro h1 h2; simp [reorder_elf, h1, h2]
  · intro h1 h2 h3; simp [reorder_elf, h1, h2, h3]
  · intro h o hok
    rcases h with h | h | h
    · simp [reorder_elf, h] at hok
    · by_cases hmg : f.magic = elfMagic
      · simp [reorder_elf, hmg, h] at hok
      · simp [reorder_elf, hmg] at hok
    · by_cases hmg : f.magic = elfMagic
      · by_cases hcl : f.eiClass = 1
        · simp [reorder_elf, hmg, hcl, h] at hok
        · simp [reorder_elf, hmg, hcl] at hok
      · simp [reorder_elf, hmg] at hok

/-- Witness for C7 at a concrete non-ELF image. -/
theorem C7_witness : reorder_elf exBadMagic = .error .BadMagic :=
  (C7_header_validation exBadMagic).1 (by decide)

/-- C1 counterexample: on a validated image with no loadable entry of
virtual address 0 the transform does not fail — it produces an output
(keeping the original header count), refuting the claim that no output
file is written. -/
theorem C1_counterexample :
    (reorder_elf exNoStorage).toOption.isSome = true ∧
    (reorder_elf exNoStorage).toOption.map ElfFile.phnum = some 1 := by decide

/-- C1 amended: when no loadable entry has virtual address 0 the script
prints a warning, keeps the original program-header entries (only their
offset fields go through the relocation patch), keeps the original count,
and still writes an output file. -/
theorem C1_no_storage_still_writes (f : ElfFile) (hm : f.magic = elfMagic)
    (hc : f.eiClass = 1) (hd : f.eiData = 1) (hs : findStorage f.segments = none) :
    ∃ o, reorder_elf f = .ok o ∧ o.phnum = f.phnum ∧
      o.segments = f.segments.map (patch_p_offset f.phoff (f.phentsize * f.phnum)) := by
  refine ⟨_, reorder_elf_ok f hm hc hd, ?_, ?_⟩ <;>
    simp [merge_eq_warn_noStorage f.segments f.phentsize f.phnum hs]

/-- Witness for the amended C1 at the concrete storage-less image. -/
theorem C1_witness :
    ∃ o, reorder_elf exNoStorage = .ok o ∧ o.phnum = exNoStorage.phnum ∧
      o.segments = exNoStorage.segments.map
        (patch_p_offset exNoStorage.phoff (exNoStorage.phentsize * exNoStorage.phnum)) :=
  C1_no_storage_still_writes exNoStorage rfl rfl rfl (by decide)

/-- C10: an input that passes validation but has no storage segment (or no
code segment) still yields an output and exit status 0: the table is
removed and re-appended with all entries kept (count unchanged), `phoff`
becomes the end-of-file position where the table is re-appended, and the
offset patching passes still run. -/
theorem C10_warning_path_output (f : ElfFile) (hm : f.magic = elfMagic)
    (hc : f.eiClass = 1) (hd : f.eiData = 1)
    (hw : findStorage f.segments = none ∨ codeSegs f.segments = []) :
    ∃ o, reorder_elf f = .ok o ∧ o.phnum = f.phnum ∧
      o.phoff = sliceRemoveLen f.fileSize f.phoff (f.phentsize * f.phnum) ∧
      o.segments = f.segments.map (patch_p_offset f.phoff (f.phentsize * f.phnum)) ∧
      o.sections = (if f.phoff < f.shoff then
          f.sections.map (patch_sh_offset f.phoff (f.phentsize * f.phnum))
        else f.sections) ∧
      cli_exit_code f = 0 := by
  have hmerge : merge_load_segments f.segments f.phentsize f.phnum =
      ⟨f.segments, f.phnum, f.phentsize * f.phnum⟩ := by
    rcases hw with hw | hw
    · exact merge_eq_warn_noStorage f.segments f.phentsize f.phnum hw
    · cases hfs : findStorage f.segments with
      | none => exact merge_eq_warn_noStorage f.segments f.phentsize f.phnum hfs
      | some st => exact merge_eq_warn_noCode f.segments f.phentsize f.phnum st hfs hw
  refine ⟨_, reorder_elf_ok f hm hc hd, ?_, ?_, ?_, ?_, ?_⟩
  · simp [hmerge]
  · simp
  · simp [hmerge]
  · simp
  · unfold cli_exit_code
    rw [reorder_elf_ok f hm hc hd]

/-- Witness for C10 at the concrete storage-less image. -/
theorem C10_witness :
    ∃ o, reorder_elf exNoStorage = .ok o ∧ o.phnum = exNoStorage.phnum ∧
      o.phoff = sliceRemoveLen exNoStorage.fileSize exNoStorage.phoff
        (exNoStorage.phentsize * exNoStorage.phnum) ∧
      o.segments = exNoStorage.segments.map
        (patch_p_offset exNoStorage.phoff (exNoStorage.phentsize * exNoStorage.phnum)) ∧
      o.sections = (if exNoStorage.phoff < exNoStorage.shoff then
          exNoStorage.sections.map
            (patch_sh_offset exNoStorage.phoff (exNoStorage.phentsize * exNoStorage.phnum))
        else exNoStorage.sections) ∧
      cli_exit_code exNoStorage = 0 :=
  C10_warning_path_output exNoStorage rfl rfl rfl (Or.inl (by decide))

/-- C2 counterexample: on a valid image of size 768 with one storage and
one code entry (`phnum_in = 2`, `phentsize = 32`), the header receives
`phoff = 704 = 768 − 2·32`, while the claimed formula
`inputFileSize − (phnum_in − 2)·phentsize` gives 768. -/
theorem C2_counterexample :
    (reorder_elf exOneCode).toOption.map ElfFile.phoff = some 704 ∧
    exOneCode.fileSize - (exOneCode.phnum - 2) * exOneCode.phentsize = 768 ∧
    (704 : Nat) ≠ 768 := by decide

/-- C2 amended: for every valid input with one storage and N ≥ 1 code
entries whose table lies inside the file, the `phoff` written to the
output header equals `inputFileSize − phnum_in · phentsize` (the file
length after the old table is removed); the claimed
`inputFileSize − (phnum_in − 2) · phentsize` is instead the output file
size when `phentsize = 32`. -/
theorem C2_phoff_formula (f : ElfFile) (hm : f.magic = elfMagic) (hc : f.eiClass = 1)
    (hd : f.eiData = 1) (hst : (findStorage f.segments).isSome)
    (hcs : codeSegs f.segments ≠ [])
    (hfit : f.phoff + f.phentsize * f.phnum ≤ f.fileSize) :
    ∃ o, reorder_elf f = .ok o ∧ o.phoff = f.fileSize - f.phentsize * f.phnum := by
  refine ⟨_, reorder_elf_ok f hm hc hd, ?_⟩
  simpa using sliceRemoveLen_of_fit f.fileSize f.phoff (f.phentsize * f.phnum) hfit

/-- Witness for the amended C2 at the one-storage-one-code image. -/
theorem C2_witness :
    ∃ o, reorder_elf exOneCode = .ok o ∧
      o.phoff = exOneCode.fileSize - exOneCode.phentsize * exOneCode.phnum :=
  C2_phoff_formula exOneCode rfl rfl rfl (by decide) (by decide) (by decide)

/-- C3 counterexample: a valid image whose single code entry has
`paddr = 0x2000` and `align = 8` keeps both values in the output code
entry (vaddr stays 0x1000), refuting the claim that the single-entry case
is normalized to `paddr = min vaddr` and `align = 4`. -/
theorem C3_counterexample :
    ((reorder_elf exOddFile).toOption.map fun o =>
        o.segments.map fun s => (s.vaddr, s.paddr, s.align))
      = some [(0, 0, 4), (0x1000, 0x2000, 8)] ∧
    ¬((0x2000 : Nat) = 0x1000 ∧ (8 : Nat) = 4) := by decide

/-- C3 amended: when exactly one code entry exists the merge rule is NOT
applied — the entry is passed through unchanged (only the later offset
relocation may touch its offset field), so its original `paddr` and
`align` survive into the output. -/
theorem C3_single_code_passthrough (f : ElfFile) (hm : f.magic = elfMagic)
    (hc : f.eiClass = 1) (hd : f.eiData = 1) (st c : PHEntry)
    (hst : findStorage f.segments = some st) (hcs : codeSegs f.segments = [c]) :
    ∃ o, reorder_elf f = .ok o ∧
      o.segments = [patch_p_offset f.phoff (f.phentsize * f.phnum) st,
                    patch_p_offset f.phoff (f.phentsize * f.phnum) c] ∧
      (o.segments.map fun s => (s.paddr, s.align))
        = [(st.paddr, st.align), (c.paddr, c.align)] := by
  refine ⟨_, reorder_elf_ok f hm hc hd, ?_, ?_⟩
  · simp [merge_eq_single f.segments f.phentsize f.phnum st c hst hcs]
  · simp [merge_eq_single f.segments f.phentsize f.phnum st c hst hcs,
      patch_p_offset_paddr, patch_p_offset_align]

/-- Witness for the amended C3 at the image with the odd code entry. -/
theorem C3_witness :
    ∃ o, reorder_elf exOddFile = .ok o ∧
      o.segments = [patch_p_offset exOddFile.phoff (exOddFile.phentsize * exOddFile.phnum)
                      exStorageSeg,
                    patch_p_offset exOddFile.phoff (exOddFile.phentsize * exOddFile.phnum)
                      exCodeOdd] ∧
      (o.segments.map fun s => (s.paddr, s.align))
        = [(exStorageSeg.paddr, exStorageSeg.align), (exCodeOdd.paddr, exCodeOdd.align)] :=
  C3_single_code_passthrough exOddFile rfl rfl rfl exStorageSeg exCodeOdd
    (by decide) (by decide)

/-- C4 counterexample: a valid image whose section table sits at
`shoff = 0 ≤ phoff` keeps a section data-offset of 500 unchanged in the
output even though 500 is greater than `phoff = 52` and below the
sentinel, refuting the unconditional decrement claim (the patch loop only
runs when `shoff > phoff`). -/
theorem C4_counterexample :
    (reorder_elf exShoffLow).toOption.map ElfFile.sections = some [500] ∧
    exShoffLow.phoff < 500 ∧ (500 : Nat) < 0xFFFFFFFF ∧
    (500 : Nat) ≠ 500 - exShoffLow.phentsize * exShoffLow.phnum := by decide

/-- C4 amended: provided the section table lies after the program-header
table (`shoff > phoff`), every section data-offset (a 32-bit field)
greater than the original `phoff` and different from the all-ones
sentinel is decremented by `oldTableSize = phentsize · phnum`, and every
section data-offset at most `phoff` is unchanged; when `shoff ≤ phoff`
the pass is skipped entirely. -/
theorem C4_section_offset_patch (f : ElfFile) (hm : f.magic = elfMagic)
    (hc : f.eiClass = 1) (hd : f.eiData = 1) (hsh : f.phoff < f.shoff) :
    ∃ o, reorder_elf f = .ok o ∧ ∀ i off, f.sections.get? i = some off → off < 2 ^ 32 →
      ((f.phoff < off → off ≠ 0xFFFFFFFF →
          o.sections.get? i = some (off - f.phentsize * f.phnum)) ∧
       (off ≤ f.phoff → o.sections.get? i = some off)) := by
  refine ⟨_, reorder_elf_ok f hm hc hd, ?_⟩
  intro i off hget hlt
  have hsec : (if f.phoff < f.shoff then
        f.sections.map (patch_sh_offset f.phoff (f.phentsize * f.phnum))
      else f.sections) = f.sections.map (patch_sh_offset f.phoff (f.phentsize * f.phnum)) :=
    if_pos hsh
  constructor
  · intro h1 h2
    have hcond : f.phoff < off ∧ off < 0xFFFFFFFF := ⟨h1, by omega⟩
    simp only [hsec, List.get?_map, hget, Option.map_some', patch_sh_offset, if_pos hcond]
  · intro h1
    have hcond : ¬(f.phoff < off ∧ off < 0xFFFFFFFF) := by omega
    simp only [hsec, List.get?_map, hget, Option.map_some', patch_sh_offset, if_neg hcond]

/-- Witness for the amended C4 at the spec's concrete scenario image. -/
theorem C4_witness :
    ∃ o, reorder_elf exFile = .ok o ∧ ∀ i off, exFile.sections.get? i = some off →
      off < 2 ^ 32 →
      ((exFile.phoff < off → off ≠ 0xFFFFFFFF →
          o.sections.get? i = some (off - exFile.phentsize * exFile.phnum)) ∧
       (off ≤ exFile.phoff → o.sections.get? i = some off)) :=
  C4_section_offset_patch exFile rfl rfl rfl (by decide)

/-- C5: with a storage segment and two or more code entries, the merged
code entry has offset = min offset, vaddr = paddr = min vaddr,
filesz = max(offset+filesz) − min offset, memsz = max(vaddr+memsz) − min
vaddr, flags = OR of all code flags, and loadable type. -/
theorem C5_merge_rule (segments : List PHEntry) (e_phentsize e_phnum : Nat)
    (st : PHEntry) (hst : findStorage segments = some st)
    (h2 : 2 ≤ (codeSegs segments).length) :
    ∃ m, (merge_load_segments segments e_phentsize e_phnum).segs = [st, m] ∧
      (merge_load_segments segments e_phentsize e_phnum).phnum = 2 ∧
      m.ptype = PT_LOAD ∧
      ((codeSegs segments).map fun s => s.offset).min? = some m.offset ∧
      ((codeSegs segments).map fun s => s.vaddr).min? = some m.vaddr ∧
      m.paddr = m.vaddr ∧
      (∃ me, ((codeSegs segments).map fun s => s.offset + s.filesz).max? = some me ∧
        m.filesz = me - m.offset) ∧
      (∃ mm, ((codeSegs segments).map fun s => s.vaddr + s.memsz).max? = some mm ∧
        m.memsz = mm - m.vaddr) ∧
      m.flags = (codeSegs segments).foldl (fun acc s => acc ||| s.flags) 0 := by
  have hne : codeSegs segments ≠ [] := by
    intro he; rw [he] at h2; simp only [List.length_nil] at h2; omega
  rw [merge_eq_multi segments e_phentsize e_phnum st hst h2]
  refine ⟨merged_code_seg (codeSegs segments), rfl, rfl, rfl, ?_, ?_, rfl, ?_, ?_, rfl⟩
  · exact min?_getD_of_ne_nil _ (by simpa using hne)
  · exact min?_getD_of_ne_nil _ (by simpa using hne)
  · exact ⟨_, max?_getD_of_ne_nil _ (by simpa using hne), rfl⟩
  · exact ⟨_, max?_getD_of_ne_nil _ (by simpa using hne), rfl⟩

/-- Witness for C5 at the spec's concrete two-code-segment scenario. -/
theorem C5_witness :
    ∃ m, (merge_load_segments exFile.segments 32 3).segs = [exStorageSeg, m] ∧
      (merge_load_segments exFile.segments 32 3).phnum = 2 ∧
      m.ptype = PT_LOAD ∧
      ((codeSegs exFile.segments).map fun s => s.offset).min? = some m.offset ∧
      ((codeSegs exFile.segments).map fun s => s.vaddr).min? = some m.vaddr ∧
      m.paddr = m.vaddr ∧
      (∃ me, ((codeSegs exFile.segments).map fun s => s.offset + s.filesz).max? = some me ∧
        m.filesz = me - m.offset) ∧
      (∃ mm, ((codeSegs exFile.segments).map fun s => s.vaddr + s.memsz).max? = some mm ∧
        m.memsz = mm - m.vaddr) ∧
      m.flags = (codeSegs exFile.segments).foldl (fun acc s => acc ||| s.flags) 0 :=
  C5_merge_rule exFile.segments 32 3 exStorageSeg (by decide) (by decide)

/-- C6: on a valid input (32-byte entries, header count matching the
table, table inside the file) with one storage and at least one code
entry, the output table is exactly `[storage, mergedCode]` (count 2,
storage first) and the output size is the original size minus
`(phnum_in − 2) · phentsize`. -/
theorem C6_two_entry_layout (f : ElfFile) (hm : f.magic = elfMagic) (hc : f.eiClass = 1)
    (hd : f.eiData = 1) (st : PHEntry) (hst : findStorage f.segments = some st)
    (hcs : codeSegs f.segments ≠ []) (hlen : f.segments.length = f.phnum)
    (hps : f.phentsize = 32)
    (hfit : f.phoff + f.phentsize * f.phnum ≤ f.fileSize) :
    ∃ mc o, reorder_elf f = .ok o ∧ o.phnum = 2 ∧
      merge_load_segments f.segments f.phentsize f.phnum = ⟨[st, mc], 2, 64⟩ ∧
      o.segments = [patch_p_offset f.phoff (f.phentsize * f.phnum) st,
                    patch_p_offset f.phoff (f.phentsize * f.phnum) mc] ∧
      st.vaddr = 0 ∧
      o.fileSize = f.fileSize - (f.phnum - 2) * f.phentsize := by
  obtain ⟨mc, hmg, hmcty, hmcv⟩ :=
    merge_segs_of_storage_code f.segments f.phentsize f.phnum st hst hcs
  refine ⟨mc, _, reorder_elf_ok f hm hc hd, ?_, hmg, ?_,
    (findStorage_spec f.segments st hst).2.2, ?_⟩
  · simp [hmg]
  · simp [hmg]
  · have h2 : 2 ≤ f.phnum := by
      obtain ⟨hmem, hty, hv⟩ := findStorage_spec f.segments st hst
      match hcd : codeSegs f.segments with
      | [] => exact absurd hcd hcs
      | c :: rest =>
        have hcmem : c ∈ codeSegs f.segments := by
          rw [hcd]; exact List.mem_cons_self c rest
        obtain ⟨hcmem2, hcty, hcv⟩ := codeSegs_spec f.segments c hcmem
        have hne : st ≠ c := fun he => hcv (he ▸ hv)
        have := two_le_length_of_mem_ne f.segments st c hmem hcmem2 hne
        omega
    have hsz : sliceRemoveLen f.fileSize f.phoff (f.phentsize * f.phnum)
        = f.fileSize - f.phentsize * f.phnum :=
      sliceRemoveLen_of_fit f.fileSize f.phoff (f.phentsize * f.phnum) hfit
    simp only [hmg, hsz]
    rw [hps] at hfit ⊢
    omega

/-- Witness for C6 at the spec's concrete scenario image. -/
theorem C6_witness :
    ∃ mc o, reorder_elf exFile = .ok o ∧ o.phnum = 2 ∧
      merge_load_segments exFile.segments exFile.phentsize exFile.phnum
        = ⟨[exStorageSeg, mc], 2, 64⟩ ∧
      o.segments = [patch_p_offset exFile.phoff (exFile.phentsize * exFile.phnum)
                      exStorageSeg,
                    patch_p_offset exFile.phoff (exFile.phentsize * exFile.phnum) mc] ∧
      exStorageSeg.vaddr = 0 ∧
      o.fileSize = exFile.fileSize - (exFile.phnum - 2) * exFile.phentsize :=
  C6_two_entry_layout exFile rfl rfl rfl exStorageSeg (by decide) (by decide)
    (by decide) (by decide) (by decide)

/-- C8: on a valid input with a storage segment, at least one code segment
and 32-byte entries, the transform is a fixed point after one
application: a second run succeeds and changes neither `phnum` (still 2)
nor the table position `phoff`. -/
theorem C8_fixed_point (f : ElfFile) (hm : f.magic = elfMagic) (hc : f.eiClass = 1)
    (hd : f.eiData = 1) (st : PHEntry) (hst : findStorage f.segments = some st)
    (hcs : codeSegs f.segments ≠ []) (hps : f.phentsize = 32) :
    ∃ o o2, reorder_elf f = .ok o ∧ reorder_elf o = .ok o2 ∧
      o2.phnum = o.phnum ∧ o2.phoff = o.phoff := by
  obtain ⟨mc, hmg, hmcty, hmcv⟩ :=
    merge_segs_of_storage_code f.segments f.phentsize f.phnum st hst hcs
  obtain ⟨hstm, hstty, hstv⟩ := findStorage_spec f.segments st hst
  have hpst : (patch_p_offset f.phoff (f.phentsize * f.phnum) st).ptype = PT_LOAD := by
    rw [patch_p_offset_ptype]; exact hstty
  have hpsv : (patch_p_offset f.phoff (f.phentsize * f.phnum) st).vaddr = 0 := by
    rw [patch_p_offset_vaddr]; exact hstv
  have hpcy : (patch_p_offset f.phoff (f.phentsize * f.phnum) mc).ptype = PT_LOAD := by
    rw [patch_p_offset_ptype]; exact hmcty
  have hpcv : (patch_p_offset f.phoff (f.phentsize * f.phnum) mc).vaddr ≠ 0 := by
    rw [patch_p_offset_vaddr]; exact hmcv
  have hfs2 := findStorage_pair _ _ hpst hpsv hpcv
  have hcs2 := codeSegs_pair (patch_p_offset f.phoff (f.phentsize * f.phnum) st)
    (patch_p_offset f.phoff (f.phentsize * f.phnum) mc) hpsv hpcy hpcv
  refine ⟨_, _, reorder_elf_ok f hm hc hd, reorder_elf_ok _ hm hc hd, ?_, ?_⟩
  · dsimp only
    simp only [hmg, List.map_cons, List.map_nil]
    rw [merge_eq_single _ _ _ _ _ hfs2 hcs2]
  · dsimp only
    simp only [hmg, List.map_cons, List.map_nil]
    rw [hps]
    exact sliceRemoveLen_at_end _ 64

/-- Witness for C8 at the spec's concrete scenario image. -/
theorem C8_witness :
    ∃ o o2, reorder_elf exFile = .ok o ∧ reorder_elf o = .ok o2 ∧
      o2.phnum = o.phnum ∧ o2.phoff = o.phoff :=
  C8_fixed_point exFile rfl rfl rfl exStorageSeg (by decide) (by decide) (by decide)

/-- C9: on a valid input with a storage segment and at least one code
segment, the 2-entry output table contains only loadable entries —
entries of any other type are excluded, however many the input had. -/
theorem C9_nonloadable_excluded (f : ElfFile) (hm : f.magic = elfMagic)
    (hc : f.eiClass = 1) (hd : f.eiData = 1) (st : PHEntry)
    (hst : findStorage f.segments = some st) (hcs : codeSegs f.segments ≠ []) :
    ∃ o, reorder_elf f = .ok o ∧ o.segments.length = 2 ∧
      ∀ s ∈ o.segments, s.ptype = PT_LOAD := by
  obtain ⟨mc, hmg, hmcty, hmcv⟩ :=
    merge_segs_of_storage_code f.segments f.phentsize f.phnum st hst hcs
  refine ⟨_, reorder_elf_ok f hm hc hd, ?_, ?_⟩
  · simp [hmg]
  · intro s hs
    simp only [hmg, List.map_cons, List.map_nil, List.mem_cons,
      List.not_mem_nil, or_false] at hs
    rcases hs with hs | hs <;> subst hs
    · rw [patch_p_offset_ptype]; exact (findStorage_spec f.segments st hst).2.1
    · rw [patch_p_offset_ptype]; exact hmcty

/-- Witness for C9 at the image that carries a non-loadable note entry. -/
theorem C9_witness :
    ∃ o, reorder_elf exWithNote = .ok o ∧ o.segments.length = 2 ∧
      ∀ s ∈ o.segments, s.ptype = PT_LOAD :=
  C9_nonloadable_excluded exWithNote rfl rfl rfl exStorageSeg (by decide) (by decide)

end ReorderElf
